import Mathlib

/-!
Verification of the DynamoDB-backed LaunchDarkly feature store
(dynamodb/dynamodb.go): a shallow embedding of the data model and the
operations of the store, with theorems about the optimistic-concurrency
control, the tombstone delete model, full synchronization (`Init`), the reads
(`Get`, `All`) and the batching helper.

The backend (DynamoDB) is modelled per table as a list of stored records in
which the `key` attribute is the sole identity (DynamoDB hash key); a
conditional `PutItem` either replaces the item with the same key, is rejected
by the condition expression, or fails with a transport error (modelled by an
injected fault).  The attribute-map codec is modelled as the identity on
records, since every property under study is independent of the wire encoding.
-/

namespace DynamoStore

/-- A versioned, keyed datum: the `key`, `version` and `deleted` attributes of
a stored item, plus an opaque kind-specific payload.  `version` is a Go `int`,
modelled as `Int`. -/
structure Record where
  key : String
  version : Int
  deleted : Bool
  payload : String
deriving DecidableEq, Repr

/-- A data kind (flags or segments): only its namespace matters to the store,
via `tableName`. -/
structure Kind where
  getNamespace : String
deriving DecidableEq, Repr

/-- The tombstone record a kind constructs for `Delete` (the `MakeDeletedItem`
capability of the go-client collaborator: it yields an item with the given key
and version and `Deleted = true`, over an empty payload shell). -/
def Kind.makeDeletedItem (_ : Kind) (key : String) (version : Int) : Record :=
  { key := key, version := version, deleted := true, payload := "" }

/-- The state of a `DynamoDBFeatureStore`: the table prefix, the backend state
(contents of every table, as a function from table name to its stored items),
and the `inited` flag (the boolean field of the store that `Initialized`
reads). -/
structure DynamoDBFeatureStore where
  tablePrefix : String
  tables : String → List Record
  inited : Bool

/-- Table naming: `store.tableName(kind) = store.TablePrefix + kind.GetNamespace()`. -/
def tableName (store : DynamoDBFeatureStore) (kind : Kind) : String :=
  store.tablePrefix ++ kind.getNamespace

/-- A fresh store as built by `NewDynamoDBFeatureStore`: empty backend,
`inited := false`. -/
def mkStore (prefixStr : String) : DynamoDBFeatureStore :=
  { tablePrefix := prefixStr, tables := fun _ => [], inited := false }

/-- Point read of a table: the item whose `key` attribute equals `key`
(DynamoDB `GetItem` on the hash key). -/
def findItem (items : List Record) (key : String) : Option Record :=
  items.find? (fun r => r.key == key)

/-- Unconditional `PutItem`: replace the item with the same key, or append the
new item if no item with that key exists. -/
def putReplace : List Record → Record → List Record
  | [], item => [item]
  | r :: rest, item =>
      if r.key == item.key then item :: rest else r :: putReplace rest item

/-- Update of a single table of the backend, leaving every other table as
is. -/
def setTable (f : String → List Record) (t : String) (items : List Record) :
    String → List Record :=
  fun s => if s = t then items else f s

/-- The three outcomes of the conditional `PutItem` issued by
`updateWithVersioning`. -/
inductive PutOutcome where
  | applied
  | condFailed
  | transportError (e : String)
deriving DecidableEq, Repr

/-- Conditional `PutItem` with condition
`attribute_not_exists(#key) or :version > #version`: apply if no item exists
for the key, or if the version of the candidate is strictly greater than the
version of the stored item; otherwise fail the condition.  `fault` injects a
transport error (any backend failure other than the conditional check). -/
def putItemCond (fault : Option String) (items : List Record) (item : Record) :
    List Record × PutOutcome :=
  match fault with
  | some e => (items, .transportError e)
  | none =>
      match findItem items item.key with
      | none => (putReplace items item, .applied)
      | some stored =>
          if stored.version < item.version then (putReplace items item, .applied)
          else (items, .condFailed)

/-- Conditional write primitive `updateWithVersioning`: issue the conditional
put; a `ConditionalCheckFailedException` is swallowed (`return nil`), any
other error is returned, and on success the table holds the new item. -/
def updateWithVersioning (fault : Option String) (store : DynamoDBFeatureStore)
    (kind : Kind) (item : Record) : DynamoDBFeatureStore × Except String Unit :=
  let table := tableName store kind
  match putItemCond fault (store.tables table) item with
  | (items2, .applied) =>
      ({ store with tables := setTable store.tables table items2 }, .ok ())
  | (_, .condFailed) => (store, .ok ())
  | (_, .transportError e) => (store, .error e)

/-- Operation `Upsert`: delegates to `updateWithVersioning`. -/
def Upsert (fault : Option String) (store : DynamoDBFeatureStore) (kind : Kind)
    (item : Record) : DynamoDBFeatureStore × Except String Unit :=
  updateWithVersioning fault store kind item

/-- Operation `Delete`: builds the tombstone of the kind for the key and
version and delegates to `updateWithVersioning`. -/
def Delete (fault : Option String) (store : DynamoDBFeatureStore) (kind : Kind)
    (key : String) (version : Int) : DynamoDBFeatureStore × Except String Unit :=
  updateWithVersioning fault store kind (kind.makeDeletedItem key version)

/-- Operation `Get`: strongly-consistent point read; `nil, nil` (modelled
`.ok none`) when no item exists or the stored item is marked deleted, the
decoded item otherwise. -/
def Get (store : DynamoDBFeatureStore) (kind : Kind) (key : String) :
    Except String (Option Record) :=
  match findItem (store.tables (tableName store kind)) key with
  | none => .ok none
  | some item => if item.deleted then .ok none else .ok (some item)

/-- A `BatchWriteItem` write request: `PutRequest` or `DeleteRequest`. -/
inductive WriteRequest where
  | put (item : Record)
  | del (key : String)
deriving DecidableEq, Repr

/-- The effect of one write request on a table: an unconditional put replaces
the item with the same key; a delete removes the item with the given key. -/
def applyRequest (items : List Record) : WriteRequest → List Record
  | .put r => putReplace items r
  | .del k => items.filter (fun r => r.key != k)

/-- The effect of a list of write requests, applied in order. -/
def applyRequests (items : List Record) (reqs : List WriteRequest) : List Record :=
  reqs.foldl applyRequest items

/-- The loop of `batchWriteRequests`, with an explicit structural fuel (the
fuel is set to the length of the request list, for which the loop is exact):
while requests remain, take `min(len, 25)` of them as the next batch and
continue with the rest. -/
def writeBatchesGo : Nat → List WriteRequest → List (List WriteRequest)
  | 0, _ => []
  | _, [] => []
  | fuel + 1, requests =>
      let batchSize := min requests.length 25
      requests.take batchSize :: writeBatchesGo fuel (requests.drop batchSize)

/-- Helper `batchWriteRequests`: the sequence of batches submitted for a
request list. -/
def writeBatches (requests : List WriteRequest) : List (List WriteRequest) :=
  writeBatchesGo requests.length requests

/-- Submission of the batches in order: the requests of each batch are applied
in order within the batch (the net effect of `BatchWriteItem` on the table
when every batch succeeds). -/
def submitBatches (items : List Record) (batchList : List (List WriteRequest)) :
    List Record :=
  batchList.foldl applyRequests items

/-- The request list built by `truncateTable`: one `DeleteRequest` per scanned
item, keyed by the key of the item. -/
def truncateRequests (items : List Record) : List WriteRequest :=
  items.map (fun r => .del r.key)

/-- Helper `truncateTable`: scan all items of the table of the kind and submit
a deletion for every existing key, in batches. -/
def truncateTable (store : DynamoDBFeatureStore) (kind : Kind) :
    DynamoDBFeatureStore :=
  let table := tableName store kind
  let items := store.tables table
  { store with
      tables := setTable store.tables table
        (submitBatches items (writeBatches (truncateRequests items))) }

/-- One iteration of the `Init` loop for a kind: truncate the table of the
kind, then batch-write a `PutRequest` for every record of the desired dataset
for that kind. -/
def initKind (store : DynamoDBFeatureStore) (kind : Kind) (items : List Record) :
    DynamoDBFeatureStore :=
  let store1 := truncateTable store kind
  let table := tableName store1 kind
  { store1 with
      tables := setTable store1.tables table
        (submitBatches (store1.tables table)
          (writeBatches (items.map (fun r => .put r)))) }

/-- Operation `Init` on the fault-free backend: rebuild the table of every
kind in the dataset (delete-then-write per partition), then set the `inited`
flag. -/
def Init (store : DynamoDBFeatureStore)
    (allData : List (Kind × List Record)) : DynamoDBFeatureStore :=
  let store2 := allData.foldl (fun s kv => initKind s kv.1 kv.2) store
  { store2 with inited := true }

/-- The `Init` loop with injected faults: `faults.headD false = true` at step
i makes the processing of the i-th kind fail with a transport error (its
table is then left unchanged and the whole call aborts).  Returns the store
and whether the call succeeded. -/
def initLoop (store : DynamoDBFeatureStore) :
    List (Kind × List Record) → List Bool → DynamoDBFeatureStore × Bool
  | [], _ => (store, true)
  | (kind, items) :: rest, faults =>
      if faults.headD false then (store, false)
      else initLoop (initKind store kind items) rest faults.tail

/-- Operation `Init` with injected faults: run the loop; only when every kind
succeeded is the `inited` flag set (the code returns early on any error,
before the assignment). -/
def InitF (store : DynamoDBFeatureStore) (allData : List (Kind × List Record))
    (faults : List Bool) : DynamoDBFeatureStore × Except String Unit :=
  match initLoop store allData faults with
  | (s, true) => ({ s with inited := true }, .ok ())
  | (s, false) => (s, .error "transport")

/-- Operation `Initialized`: returns the flag of the store. -/
def Initialized (store : DynamoDBFeatureStore) : Bool :=
  store.inited

/-- Insertion into the Go result map (`results[item.GetKey()] = item`):
overwrite the entry with the same key, else append. -/
def insertResult (m : List (String × Record)) (k : String) (r : Record) :
    List (String × Record) :=
  if m.any (fun p => p.1 == k) then
    m.map (fun p => if p.1 == k then (k, r) else p)
  else m ++ [(k, r)]

/-- Operation `All`: scan every item of the table of the kind and return the
map from key to record of the items not marked deleted (tombstones are
skipped, not inserted). -/
def All (store : DynamoDBFeatureStore) (kind : Kind) :
    Except String (List (String × Record)) :=
  .ok ((store.tables (tableName store kind)).foldl
    (fun m r => if r.deleted then m else insertResult m r.key r) [])

/-- The operations visible on a store: conditional writes (`Upsert`,
`Delete`, each with an optional injected transport fault) and full
synchronizations (`Init`, with its per-kind fault schedule). -/
inductive Op where
  | upsertOp (kind : Kind) (item : Record) (fault : Option String)
  | deleteOp (kind : Kind) (key : String) (version : Int) (fault : Option String)
  | initOp (allData : List (Kind × List Record)) (faults : List Bool)

/-- Run one operation, returning the new store and `true` iff the operation
returned no error. -/
def runOp (store : DynamoDBFeatureStore) : Op → DynamoDBFeatureStore × Bool
  | .upsertOp kind item fault =>
      match Upsert fault store kind item with
      | (s, .ok _) => (s, true)
      | (s, .error _) => (s, false)
  | .deleteOp kind key version fault =>
      match Delete fault store kind key version with
      | (s, .ok _) => (s, true)
      | (s, .error _) => (s, false)
  | .initOp allData faults =>
      match InitF store allData faults with
      | (s, .ok _) => (s, true)
      | (s, .error _) => (s, false)

/-- Run a sequence of operations. -/
def runOps (store : DynamoDBFeatureStore) (ops : List Op) :
    DynamoDBFeatureStore :=
  ops.foldl (fun s op => (runOp s op).1) store

/-- Whether an operation is a conditional write (`Upsert` or `Delete`). -/
def isWriteOp : Op → Bool
  | .upsertOp _ _ _ => true
  | .deleteOp _ _ _ _ => true
  | .initOp _ _ => false

/-- Whether an `Init` call with this many kinds and this fault schedule
succeeds. -/
def initOk : Nat → List Bool → Bool
  | 0, _ => true
  | n + 1, faults => !faults.headD false && initOk n faults.tail

/-- Whether an operation is an `Init` call that returns success. -/
def opSetsInit : Op → Bool
  | .initOp allData faults => initOk allData.length faults
  | _ => false

/-- The new contents of a table after a fault-free conditional put (the table
component of `putItemCond` with no fault). -/
def condPut (items : List Record) (item : Record) : List Record :=
  (putItemCond none items item).1

/-- The flags kind (namespace `features`). -/
def flagsKind : Kind := { getNamespace := "features" }

/-- The segments kind (namespace `segments`). -/
def segmentsKind : Kind := { getNamespace := "segments" }

/-- Sample record, key `a`, version 1, live. -/
def recA1 : Record := { key := "a", version := 1, deleted := false, payload := "p1" }

/-- Sample record, key `a`, version 2, live. -/
def recA2 : Record := { key := "a", version := 2, deleted := false, payload := "p2" }

/-- Sample record, key `a`, version 3, live. -/
def recA3 : Record := { key := "a", version := 3, deleted := false, payload := "p3" }

/-- Sample record, key `a`, version 5, live. -/
def recA5 : Record := { key := "a", version := 5, deleted := false, payload := "p5" }

/-- Sample record, key `b`, version 2, live. -/
def recB2 : Record := { key := "b", version := 2, deleted := false, payload := "q2" }

/-- Sample record, key `c`, version 1, tombstoned. -/
def recC1 : Record := { key := "c", version := 1, deleted := true, payload := "" }

/-- A store whose backend holds the given items in every table (prefix
`ld-`, not yet marked as having completed an `Init`). -/
def sampleStore (items : List Record) : DynamoDBFeatureStore :=
  { tablePrefix := "ld-", tables := fun _ => items, inited := false }

/-! ### Basic lemmas about `findItem` and `putReplace` -/

theorem findItem_nil (key : String) : findItem [] key = none := rfl

theorem findItem_cons (r : Record) (rest : List Record) (key : String) :
    findItem (r :: rest) key =
      if r.key == key then some r else findItem rest key := by
  by_cases h : r.key == key <;> simp [findItem, List.find?_cons, h]

theorem findItem_putReplace (items : List Record) (it : Record) (k : String) :
    findItem (putReplace items it) k =
      if it.key == k then some it else findItem items k := by
  induction items with
  | nil =>
      by_cases h : it.key == k <;> simp [putReplace, findItem_cons, h]
  | cons r rest ih =>
      by_cases hr : r.key == it.key
      · have hrk : r.key = it.key := by simpa using hr
        by_cases h : it.key == k
        · simp [putReplace, hr, findItem_cons, h]
        · simp [putReplace, hr, findItem_cons, h, hrk]
      · have hrk : r.key ≠ it.key := by simpa using hr
        by_cases hk : r.key == k
        · have hkk : r.key = k := by simpa using hk
          have : ¬ (it.key == k) := by
            simp only [beq_iff_eq]
            exact fun h => hrk (h ▸ hkk)
          simp [putReplace, hr, findItem_cons, hk, this]
        · simp [putReplace, hr, findItem_cons, hk, ih]

theorem putReplace_putReplace (items : List Record) (a b : Record)
    (h : a.key = b.key) : putReplace (putReplace items a) b = putReplace items b := by
  induction items with
  | nil => simp [putReplace, h]
  | cons r rest ih =>
      by_cases hr : r.key == a.key
      · have : r.key == b.key := by simpa [h] using hr
        simp [putReplace, hr, this, beq_iff_eq.mpr h]
      · have : ¬ (r.key == b.key) := by simpa [h] using hr
        simp [putReplace, hr, this, ih]

theorem putReplace_of_keys_ne (items : List Record) (it : Record)
    (h : ∀ a ∈ items, a.key ≠ it.key) : putReplace items it = items ++ [it] := by
  induction items with
  | nil => rfl
  | cons r rest ih =>
      have hr : ¬ (r.key == it.key) := by
        simpa using h r (List.mem_cons_self r rest)
      simp [putReplace, hr]
      exact ih (fun a ha => h a (List.mem_cons_of_mem r ha))

theorem setTable_self (f : String → List Record) (t : String)
    (items : List Record) : setTable f t items t = items := by
  simp [setTable]

theorem setTable_other (f : String → List Record) (t t' : String)
    (items : List Record) (h : t' ≠ t) : setTable f t items t' = f t' := by
  simp [setTable, h]

theorem setTable_setTable (f : String → List Record) (t : String)
    (a b : List Record) : setTable (setTable f t a) t b = setTable f t b := by
  funext s
  by_cases h : s = t <;> simp [setTable, h]

/-! ### Characterization of `updateWithVersioning` -/

theorem update_fault (e : String) (store : DynamoDBFeatureStore) (kind : Kind)
    (item : Record) :
    updateWithVersioning (some e) store kind item = (store, .error e) := rfl

theorem update_none_absent (store : DynamoDBFeatureStore) (kind : Kind)
    (item : Record)
    (h : findItem (store.tables (tableName store kind)) item.key = none) :
    updateWithVersioning none store kind item =
      ({ store with tables := (setTable store.tables (tableName store kind)
          (putReplace (store.tables (tableName store kind)) item)) }, .ok ()) := by
  simp [updateWithVersioning, putItemCond, h]

theorem update_none_newer (store : DynamoDBFeatureStore) (kind : Kind)
    (item stored : Record)
    (h : findItem (store.tables (tableName store kind)) item.key = some stored)
    (hv : stored.version < item.version) :
    updateWithVersioning none store kind item =
      ({ store with tables := (setTable store.tables (tableName store kind)
          (putReplace (store.tables (tableName store kind)) item)) }, .ok ()) := by
  simp [updateWithVersioning, putItemCond, h, hv]

theorem update_none_stale (store : DynamoDBFeatureStore) (kind : Kind)
    (item stored : Record)
    (h : findItem (store.tables (tableName store kind)) item.key = some stored)
    (hv : ¬ stored.version < item.version) :
    updateWithVersioning none store kind item = (store, .ok ()) := by
  simp [updateWithVersioning, putItemCond, h, hv]

theorem update_tablePrefix (fault : Option String) (store : DynamoDBFeatureStore)
    (kind : Kind) (item : Record) :
    (updateWithVersioning fault store kind item).1.tablePrefix = store.tablePrefix := by
  rcases h : putItemCond fault (store.tables (tableName store kind)) item with ⟨items2, out⟩
  cases out <;> simp [updateWithVersioning, h]

theorem update_inited (fault : Option String) (store : DynamoDBFeatureStore)
    (kind : Kind) (item : Record) :
    (updateWithVersioning fault store kind item).1.inited = store.inited := by
  rcases h : putItemCond fault (store.tables (tableName store kind)) item with ⟨items2, out⟩
  cases out <;> simp [updateWithVersioning, h]

/-- If a key is stored before a conditional write, it is stored after it, with
a version at least as large (per-step version monotonicity, for every table
and key). -/
theorem update_version_mono (fault : Option String) (store : DynamoDBFeatureStore)
    (kind : Kind) (item : Record) (t k : String) (r : Record)
    (h : findItem (store.tables t) k = some r) :
    ∃ r', findItem ((updateWithVersioning fault store kind item).1.tables t) k = some r'
      ∧ r.version ≤ r'.version := by
  match fault with
  | some e => exact ⟨r, by simp [update_fault, h], le_refl _⟩
  | none =>
    by_cases ht : t = tableName store kind
    · subst ht
      match hf : findItem (store.tables (tableName store kind)) item.key with
      | none =>
          rw [update_none_absent store kind item hf]
          simp only [setTable_self]
          by_cases hk : item.key == k
          · have : item.key = k := by simpa using hk
            rw [this] at hf
            rw [hf] at h
            exact absurd h (by simp)
          · exact ⟨r, by rw [findItem_putReplace, if_neg (by simpa using hk)]; exact h, le_refl _⟩
      | some stored =>
          by_cases hv : stored.version < item.version
          · rw [update_none_newer store kind item stored hf hv]
            simp only [setTable_self]
            by_cases hk : item.key == k
            · have hik : item.key = k := by simpa using hk
              rw [hik] at hf
              rw [hf] at h
              cases h
              exact ⟨item, by rw [findItem_putReplace, if_pos (by simpa using hik)], le_of_lt hv⟩
            · exact ⟨r, by rw [findItem_putReplace, if_neg (by simpa using hk)]; exact h, le_refl _⟩
          · rw [update_none_stale store kind item stored hf hv]
            exact ⟨r, h, le_refl _⟩
    · refine ⟨r, ?_, le_refl _⟩
      match hf : findItem (store.tables (tableName store kind)) item.key with
      | none =>
          rw [update_none_absent store kind item hf]
          simpa [setTable_other _ _ _ _ ht] using h
      | some stored =>
          by_cases hv : stored.version < item.version
          · rw [update_none_newer store kind item stored hf hv]
            simpa [setTable_other _ _ _ _ ht] using h
          · rw [update_none_stale store kind item stored hf hv]
            exact h

/-! ### Lemmas about batching -/

theorem writeBatchesGo_join (fuel : Nat) :
    ∀ reqs : List WriteRequest, reqs.length ≤ fuel →
      (writeBatchesGo fuel reqs).flatten = reqs := by
  induction fuel with
  | zero =>
      intro reqs h
      have : reqs = [] := List.eq_nil_of_length_eq_zero (Nat.le_zero.mp h)
      subst this
      rfl
  | succ n ih =>
      intro reqs h
      match reqs with
      | [] => rfl
      | q :: rest =>
          simp only [writeBatchesGo]
          rw [List.flatten_cons, ih]
          · exact List.take_append_drop _ _
          · have h1 : 1 ≤ min (q :: rest).length 25 := by
              simp [Nat.le_min]
            simp only [List.length_drop]
            omega

theorem writeBatches_join (reqs : List WriteRequest) :
    (writeBatches reqs).flatten = reqs :=
  writeBatchesGo_join reqs.length reqs (le_refl _)

theorem writeBatchesGo_le (fuel : Nat) :
    ∀ (reqs : List WriteRequest) (b : List WriteRequest),
      b ∈ writeBatchesGo fuel reqs → b.length ≤ 25 := by
  induction fuel with
  | zero => intro reqs b h; exact absurd h (by simp [writeBatchesGo])
  | succ n ih =>
      intro reqs b h
      match reqs with
      | [] => exact absurd h (by simp [writeBatchesGo])
      | q :: rest =>
          simp only [writeBatchesGo, List.mem_cons] at h
          cases h with
          | inl h =>
              subst h
              simp only [List.length_take]
              omega
          | inr h => exact ih _ b h

theorem writeBatches_le (reqs b : List WriteRequest) (h : b ∈ writeBatches reqs) :
    b.length ≤ 25 :=
  writeBatchesGo_le reqs.length reqs b h

theorem submitBatches_eq_join (items : List Record)
    (batchList : List (List WriteRequest)) :
    submitBatches items batchList = applyRequests items batchList.flatten := by
  rw [submitBatches, applyRequests, List.foldl_flatten]
  rfl

theorem submitBatches_writeBatches (items : List Record)
    (reqs : List WriteRequest) :
    submitBatches items (writeBatches reqs) = applyRequests items reqs := by
  rw [submitBatches_eq_join, writeBatches_join]

/-! ### The effect of the delete-all and write-all request lists -/

theorem applyRequests_dels (ks : List String) (items : List Record) :
    applyRequests items (ks.map .del) =
      items.filter (fun r => !(decide (r.key ∈ ks))) := by
  induction ks generalizing items with
  | nil => simp [applyRequests]
  | cons k rest ih =>
      have hstep : applyRequests items ((k :: rest).map .del) =
          applyRequests (items.filter (fun r => r.key != k)) (rest.map .del) := rfl
      rw [hstep, ih, List.filter_filter]
      congr 1
      funext r
      by_cases h1 : r.key = k <;> by_cases h2 : r.key ∈ rest <;>
        simp [h1, h2, List.mem_cons]

theorem applyRequests_truncate (items : List Record) :
    applyRequests items (truncateRequests items) = [] := by
  have h : truncateRequests items = (items.map (fun r => r.key)).map .del := by
    simp [truncateRequests, List.map_map, Function.comp]
  rw [h, applyRequests_dels]
  refine List.filter_eq_nil_iff.mpr ?_
  intro r hr
  have hmem : r.key ∈ items.map (fun x => x.key) :=
    List.mem_map_of_mem (fun x => x.key) hr
  simp [hmem]

theorem applyRequests_puts (items : List Record) (acc : List Record)
    (hnd : (items.map (fun r => r.key)).Nodup)
    (hdis : ∀ a ∈ acc, ∀ b ∈ items, a.key ≠ b.key) :
    applyRequests acc (items.map .put) = acc ++ items := by
  induction items generalizing acc with
  | nil => simp [applyRequests]
  | cons r rest ih =>
      have hstep : applyRequests acc ((r :: rest).map .put) =
          applyRequests (putReplace acc r) (rest.map .put) := rfl
      rw [hstep, putReplace_of_keys_ne acc r
        (fun a ha => hdis a ha r (List.mem_cons_self r rest))]
      have hnd' : (rest.map (fun x => x.key)).Nodup := by
        simpa using List.Nodup.of_cons hnd
      have hdis' : ∀ a ∈ acc ++ [r], ∀ b ∈ rest, a.key ≠ b.key := by
        intro a ha b hb
        rcases List.mem_append.mp ha with ha' | ha'
        · exact hdis a ha' b (List.mem_cons_of_mem r hb)
        · have haa : a = r := by simpa using ha'
          subst haa
          simp only [List.map_cons, List.nodup_cons] at hnd
          exact fun hk => hnd.1 (hk ▸ List.mem_map_of_mem (fun x => x.key) hb)
      rw [ih (acc ++ [r]) hnd' hdis']
      simp

/-! ### The effect of `truncateTable`, `initKind` and the `Init` fold -/

theorem initKind_tablePrefix (s : DynamoDBFeatureStore) (kind : Kind)
    (items : List Record) : (initKind s kind items).tablePrefix = s.tablePrefix := rfl

theorem initKind_inited (s : DynamoDBFeatureStore) (kind : Kind)
    (items : List Record) : (initKind s kind items).inited = s.inited := rfl

theorem initKind_tables_other (s : DynamoDBFeatureStore) (kind : Kind)
    (items : List Record) (t : String) (h : t ≠ tableName s kind) :
    (initKind s kind items).tables t = s.tables t := by
  have h' : t ≠ s.tablePrefix ++ kind.getNamespace := h
  simp only [initKind, truncateTable, tableName]
  rw [setTable_other _ _ _ _ h', setTable_other _ _ _ _ h']

theorem initKind_tables_self (s : DynamoDBFeatureStore) (kind : Kind)
    (items : List Record) (hnd : (items.map (fun r => r.key)).Nodup) :
    (initKind s kind items).tables (tableName s kind) = items := by
  simp only [initKind, truncateTable, tableName, setTable_self]
  rw [submitBatches_writeBatches]
  rw [submitBatches_writeBatches, applyRequests_truncate]
  rw [applyRequests_puts items [] hnd (by simp)]
  simp

theorem foldl_init_tablePrefix (allData : List (Kind × List Record)) :
    ∀ s : DynamoDBFeatureStore,
      (allData.foldl (fun st kv => initKind st kv.1 kv.2) s).tablePrefix =
        s.tablePrefix := by
  induction allData with
  | nil => intro s; rfl
  | cons kv rest ih =>
      intro s
      rw [List.foldl_cons, ih, initKind_tablePrefix]

theorem foldl_init_inited (allData : List (Kind × List Record)) :
    ∀ s : DynamoDBFeatureStore,
      (allData.foldl (fun st kv => initKind st kv.1 kv.2) s).inited = s.inited := by
  induction allData with
  | nil => intro s; rfl
  | cons kv rest ih =>
      intro s
      rw [List.foldl_cons, ih, initKind_inited]

theorem tableName_initKind (s : DynamoDBFeatureStore) (kind : Kind)
    (items : List Record) (k : Kind) :
    tableName (initKind s kind items) k = tableName s k := rfl

theorem foldl_init_tables_other (allData : List (Kind × List Record)) :
    ∀ (s : DynamoDBFeatureStore) (t : String),
      t ∉ allData.map (fun kv => tableName s kv.1) →
      (allData.foldl (fun st kv => initKind st kv.1 kv.2) s).tables t =
        s.tables t := by
  induction allData with
  | nil => intro s t _; rfl
  | cons kv rest ih =>
      intro s t h
      simp only [List.map_cons, List.mem_cons, not_or] at h
      rw [List.foldl_cons]
      rw [ih (initKind s kv.1 kv.2) t (by exact h.2)]
      exact initKind_tables_other s kv.1 kv.2 t h.1

theorem foldl_init_tables_mem (allData : List (Kind × List Record)) :
    ∀ (s : DynamoDBFeatureStore) (kind : Kind) (items : List Record),
      (kind, items) ∈ allData →
      (allData.map (fun kv => tableName s kv.1)).Nodup →
      (items.map (fun r => r.key)).Nodup →
      (allData.foldl (fun st kv => initKind st kv.1 kv.2) s).tables
        (tableName s kind) = items := by
  induction allData with
  | nil => intro s kind items hmem; exact absurd hmem (by simp)
  | cons kv rest ih =>
      intro s kind items hmem hnd hkeys
      simp only [List.map_cons, List.nodup_cons] at hnd
      rw [List.foldl_cons]
      rcases List.mem_cons.mp hmem with heq | hmem'
      · have hk : kv.1 = kind := by rw [← heq]
        have hi : kv.2 = items := by rw [← heq]
        subst hk
        subst hi
        rw [foldl_init_tables_other rest (initKind s kv.1 kv.2)
          (tableName s kv.1) (by exact hnd.1)]
        exact initKind_tables_self s kv.1 kv.2 hkeys
      · exact ih (initKind s kv.1 kv.2) kind items hmem' (by exact hnd.2) hkeys

/-! ### Lemmas about the `All` fold -/

theorem insertResult_of_keys_ne (m : List (String × Record)) (k : String)
    (r : Record) (h : ∀ p ∈ m, p.1 ≠ k) :
    insertResult m k r = m ++ [(k, r)] := by
  have hany : m.any (fun p => p.1 == k) = false := by
    simp only [List.any_eq_false]
    intro p hp
    simpa using h p hp
  simp [insertResult, hany]

theorem mem_insertResult (m : List (String × Record)) (k : String) (r : Record)
    (p : String × Record) (h : p ∈ insertResult m k r) :
    p = (k, r) ∨ p ∈ m := by
  by_cases hany : m.any (fun q => q.1 == k)
  · simp only [insertResult, hany, if_pos] at h
    rcases List.mem_map.mp h with ⟨q, hq, hpq⟩
    by_cases hqk : q.1 == k
    · left
      rw [← hpq]
      simp [hqk]
    · right
      rw [← hpq]
      simpa [hqk] using hq
  · simp only [insertResult, hany, if_neg, Bool.false_eq_true,
      not_false_eq_true] at h
    rcases List.mem_append.mp h with h' | h'
    · right; exact h'
    · left; simpa using h'

theorem all_foldl_eq (items : List Record) :
    ∀ m : List (String × Record),
      (items.map (fun r => r.key)).Nodup →
      (∀ p ∈ m, ∀ r ∈ items, p.1 ≠ r.key) →
      items.foldl (fun m r => if r.deleted then m else insertResult m r.key r) m =
        m ++ (items.filter (fun r => !r.deleted)).map (fun r => (r.key, r)) := by
  induction items with
  | nil => intro m _ _; simp
  | cons r rest ih =>
      intro m hnd hdis
      simp only [List.map_cons, List.nodup_cons] at hnd
      rw [List.foldl_cons]
      by_cases hr : r.deleted
      · rw [if_pos hr]
        rw [ih m hnd.2 (fun p hp q hq => hdis p hp q (List.mem_cons_of_mem r hq))]
        simp [hr]
      · rw [if_neg hr]
        rw [insertResult_of_keys_ne m r.key r
          (fun p hp => hdis p hp r (List.mem_cons_self r rest))]
        rw [ih (m ++ [(r.key, r)]) hnd.2 ?hdis]
        case hdis =>
          intro p hp q hq
          rcases List.mem_append.mp hp with hp' | hp'
          · exact hdis p hp' q (List.mem_cons_of_mem r hq)
          · have hpr : p = (r.key, r) := by simpa using hp'
            subst hpr
            show r.key ≠ q.key
            exact fun hk =>
              hnd.1 (by rw [hk]; exact List.mem_map_of_mem (fun x => x.key) hq)
        simp [hr]

theorem all_foldl_no_tombstone (items : List Record) :
    ∀ m : List (String × Record),
      (∀ p ∈ m, p.2.deleted = false) →
      ∀ p ∈ items.foldl
        (fun m r => if r.deleted then m else insertResult m r.key r) m,
        p.2.deleted = false := by
  induction items with
  | nil => intro m hm p hp; exact hm p hp
  | cons r rest ih =>
      intro m hm p hp
      rw [List.foldl_cons] at hp
      by_cases hr : r.deleted
      · rw [if_pos hr] at hp
        exact ih m hm p hp
      · rw [if_neg hr] at hp
        refine ih (insertResult m r.key r) ?_ p hp
        intro q hq
        rcases mem_insertResult m r.key r q hq with hq' | hq'
        · rw [hq']
          simpa using hr
        · exact hm q hq'

/-! ### Lemmas about `runOp` and `runOps` -/

theorem runOp_upsert_fst (store : DynamoDBFeatureStore) (kind : Kind)
    (item : Record) (fault : Option String) :
    (runOp store (.upsertOp kind item fault)).1 =
      (updateWithVersioning fault store kind item).1 := by
  rcases h : Upsert fault store kind item with ⟨s, r⟩
  have h' : updateWithVersioning fault store kind item = (s, r) := h
  cases r <;> simp [runOp, h, h']

theorem runOp_delete_fst (store : DynamoDBFeatureStore) (kind : Kind)
    (key : String) (version : Int) (fault : Option String) :
    (runOp store (.deleteOp kind key version fault)).1 =
      (updateWithVersioning fault store kind (kind.makeDeletedItem key version)).1 := by
  rcases h : Delete fault store kind key version with ⟨s, r⟩
  have h' : updateWithVersioning fault store kind (kind.makeDeletedItem key version)
      = (s, r) := h
  cases r <;> simp [runOp, h, h']

theorem initLoop_inited (allData : List (Kind × List Record)) :
    ∀ (store : DynamoDBFeatureStore) (faults : List Bool),
      (initLoop store allData faults).1.inited = store.inited := by
  induction allData with
  | nil => intro store faults; rfl
  | cons kv rest ih =>
      intro store faults
      rcases kv with ⟨kind, items⟩
      match faults with
      | [] =>
          show (initLoop (initKind store kind items) rest []).1.inited = _
          rw [ih (initKind store kind items) [], initKind_inited]
      | true :: fs => rfl
      | false :: fs =>
          show (initLoop (initKind store kind items) rest fs).1.inited = _
          rw [ih (initKind store kind items) fs, initKind_inited]

theorem initLoop_ok (allData : List (Kind × List Record)) :
    ∀ (store : DynamoDBFeatureStore) (faults : List Bool),
      (initLoop store allData faults).2 = initOk allData.length faults := by
  induction allData with
  | nil => intro store faults; rfl
  | cons kv rest ih =>
      intro store faults
      rcases kv with ⟨kind, items⟩
      match faults with
      | [] =>
          show (initLoop (initKind store kind items) rest []).2 =
            (!false && initOk rest.length [])
          rw [ih (initKind store kind items) []]
          simp
      | true :: fs => rfl
      | false :: fs =>
          show (initLoop (initKind store kind items) rest fs).2 =
            (!false && initOk rest.length fs)
          rw [ih (initKind store kind items) fs]
          simp

theorem runOp_inited (store : DynamoDBFeatureStore) (op : Op) :
    (runOp store op).1.inited = (store.inited || opSetsInit op) := by
  match op with
  | .upsertOp kind item fault =>
      rw [runOp_upsert_fst, update_inited]
      simp [opSetsInit]
  | .deleteOp kind key version fault =>
      rw [runOp_delete_fst, update_inited]
      simp [opSetsInit]
  | .initOp allData faults =>
      rcases h : initLoop store allData faults with ⟨s, ok⟩
      have hok : ok = initOk allData.length faults := by
        rw [← initLoop_ok allData store faults, h]
      have hin : s.inited = store.inited := by
        rw [← initLoop_inited allData store faults, h]
      cases ok with
      | true =>
          simp only [runOp, InitF, h]
          simp [opSetsInit, ← hok]
      | false =>
          simp only [runOp, InitF, h]
          simp [opSetsInit, ← hok, hin]

theorem runOps_inited (ops : List Op) :
    ∀ store : DynamoDBFeatureStore,
      (runOps store ops).inited = (store.inited || ops.any opSetsInit) := by
  induction ops with
  | nil => intro store; simp [runOps]
  | cons op rest ih =>
      intro store
      have hstep : runOps store (op :: rest) = runOps (runOp store op).1 rest := rfl
      rw [hstep, ih, runOp_inited]
      simp [Bool.or_assoc]

theorem runOp_init_snd (store : DynamoDBFeatureStore)
    (allData : List (Kind × List Record)) (faults : List Bool) :
    (runOp store (.initOp allData faults)).2 = initOk allData.length faults := by
  rcases h : initLoop store allData faults with ⟨s, ok⟩
  have hok : ok = initOk allData.length faults := by
    rw [← initLoop_ok allData store faults, h]
  cases ok <;> simp only [runOp, InitF, h] <;> simp [← hok]

/-! ### Further helper lemmas -/

theorem store_ext (s1 s2 : DynamoDBFeatureStore)
    (h1 : s1.tablePrefix = s2.tablePrefix) (h2 : s1.tables = s2.tables)
    (h3 : s1.inited = s2.inited) : s1 = s2 := by
  cases s1
  cases s2
  cases h1
  cases h2
  cases h3
  rfl

theorem setTable_id (f : String → List Record) (t : String) :
    setTable f t (f t) = f := by
  funext s
  by_cases h : s = t <;> simp [setTable, h]

theorem makeDeletedItem_key (kind : Kind) (key : String) (version : Int) :
    (kind.makeDeletedItem key version).key = key := rfl

theorem makeDeletedItem_version (kind : Kind) (key : String) (version : Int) :
    (kind.makeDeletedItem key version).version = version := rfl

theorem makeDeletedItem_deleted (kind : Kind) (key : String) (version : Int) :
    (kind.makeDeletedItem key version).deleted = true := rfl

theorem update_of_condFailed (fault : Option String)
    (store : DynamoDBFeatureStore) (kind : Kind) (item : Record)
    (h : (putItemCond fault (store.tables (tableName store kind)) item).2 =
      .condFailed) :
    updateWithVersioning fault store kind item = (store, .ok ()) := by
  rcases hp : putItemCond fault (store.tables (tableName store kind)) item
    with ⟨its, out⟩
  rw [hp] at h
  simp only at h
  subst h
  simp [updateWithVersioning, hp]

theorem update_of_transportError (fault : Option String)
    (store : DynamoDBFeatureStore) (kind : Kind) (item : Record) (e : String)
    (h : (putItemCond fault (store.tables (tableName store kind)) item).2 =
      .transportError e) :
    updateWithVersioning fault store kind item = (store, .error e) := by
  rcases hp : putItemCond fault (store.tables (tableName store kind)) item
    with ⟨its, out⟩
  rw [hp] at h
  simp only at h
  subst h
  simp [updateWithVersioning, hp]

theorem update_none_tables (store : DynamoDBFeatureStore) (kind : Kind)
    (item : Record) :
    (updateWithVersioning none store kind item).1.tables =
      setTable store.tables (tableName store kind)
        (condPut (store.tables (tableName store kind)) item) := by
  match hf : findItem (store.tables (tableName store kind)) item.key with
  | none =>
      rw [update_none_absent store kind item hf]
      simp [condPut, putItemCond, hf]
  | some stored =>
      by_cases hv : stored.version < item.version
      · rw [update_none_newer store kind item stored hf hv]
        simp [condPut, putItemCond, hf, hv]
      · rw [update_none_stale store kind item stored hf hv]
        simp only [condPut, putItemCond, hf, if_neg hv]
        exact (setTable_id store.tables (tableName store kind)).symm

theorem tableName_update (fault : Option String) (store : DynamoDBFeatureStore)
    (kind : Kind) (item : Record) (k : Kind) :
    tableName (updateWithVersioning fault store kind item).1 k =
      tableName store k := by
  rw [tableName, tableName, update_tablePrefix]

theorem double_update_tables (store : DynamoDBFeatureStore) (kind : Kind)
    (a b : Record) :
    (updateWithVersioning none (updateWithVersioning none store kind a).1
      kind b).1.tables =
      setTable store.tables (tableName store kind)
        (condPut (condPut (store.tables (tableName store kind)) a) b) := by
  have h2 := update_none_tables (updateWithVersioning none store kind a).1 kind b
  rw [h2, tableName_update, update_none_tables, setTable_self, setTable_setTable]

theorem condPut_comm (items : List Record) (a b : Record) (hk : a.key = b.key)
    (hv : a.version < b.version) :
    condPut (condPut items a) b = condPut (condPut items b) a := by
  match hf : findItem items a.key with
  | none =>
      have hfb : findItem items b.key = none := by rw [← hk]; exact hf
      have ha : condPut items a = putReplace items a := by
        simp [condPut, putItemCond, hf]
      have hb : condPut items b = putReplace items b := by
        simp [condPut, putItemCond, hfb]
      have hfa2 : findItem (putReplace items a) b.key = some a := by
        rw [findItem_putReplace, if_pos (beq_iff_eq.mpr hk)]
      have hfb2 : findItem (putReplace items b) a.key = some b := by
        rw [findItem_putReplace, if_pos (beq_iff_eq.mpr hk.symm)]
      rw [ha, hb]
      simp only [condPut, putItemCond, hfa2, hfb2, if_pos hv,
        if_neg (lt_asymm hv)]
      exact putReplace_putReplace items a b hk
  | some s =>
      have hfb : findItem items b.key = some s := by rw [← hk]; exact hf
      by_cases hs1 : s.version < a.version
      · have hs2 : s.version < b.version := lt_trans hs1 hv
        have ha : condPut items a = putReplace items a := by
          simp [condPut, putItemCond, hf, hs1]
        have hb : condPut items b = putReplace items b := by
          simp [condPut, putItemCond, hfb, hs2]
        have hfa2 : findItem (putReplace items a) b.key = some a := by
          rw [findItem_putReplace, if_pos (beq_iff_eq.mpr hk)]
        have hfb2 : findItem (putReplace items b) a.key = some b := by
          rw [findItem_putReplace, if_pos (beq_iff_eq.mpr hk.symm)]
        rw [ha, hb]
        simp only [condPut, putItemCond, hfa2, hfb2, if_pos hv,
          if_neg (lt_asymm hv)]
        exact putReplace_putReplace items a b hk
      · have ha : condPut items a = items := by
          simp [condPut, putItemCond, hf, hs1]
        by_cases hs2 : s.version < b.version
        · have hb : condPut items b = putReplace items b := by
            simp [condPut, putItemCond, hfb, hs2]
          have hfb2 : findItem (putReplace items b) a.key = some b := by
            rw [findItem_putReplace, if_pos (beq_iff_eq.mpr hk.symm)]
          rw [ha, hb]
          simp only [condPut, putItemCond, hfb, hfb2, if_pos hs2,
            if_neg (lt_asymm hv)]
        · have hb : condPut items b = items := by
            simp [condPut, putItemCond, hfb, hs2]
          rw [ha, hb]
          exact ha.symm

theorem findItem_condPut_applies (items : List Record) (item : Record)
    (h : ∀ s, findItem items item.key = some s → s.version < item.version) :
    findItem (condPut items item) item.key = some item := by
  match hf : findItem items item.key with
  | none =>
      have : condPut items item = putReplace items item := by
        simp [condPut, putItemCond, hf]
      rw [this, findItem_putReplace, if_pos (by simp)]
  | some s =>
      have hv := h s hf
      have : condPut items item = putReplace items item := by
        simp [condPut, putItemCond, hf, hv]
      rw [this, findItem_putReplace, if_pos (by simp)]

theorem runOps_version_mono (ops : List Op) :
    ∀ (store : DynamoDBFeatureStore) (t k : String) (r : Record),
      (∀ op ∈ ops, isWriteOp op = true) →
      findItem (store.tables t) k = some r →
      ∃ r', findItem ((runOps store ops).tables t) k = some r' ∧
        r.version ≤ r'.version := by
  induction ops with
  | nil => intro store t k r _ h; exact ⟨r, h, le_refl _⟩
  | cons op rest ih =>
      intro store t k r hw h
      have hw0 : isWriteOp op = true := hw op (List.mem_cons_self _ _)
      have hwr : ∀ o ∈ rest, isWriteOp o = true :=
        fun o ho => hw o (List.mem_cons_of_mem op ho)
      have hstep : runOps store (op :: rest) = runOps (runOp store op).1 rest := rfl
      rw [hstep]
      match op, hw0 with
      | .upsertOp kind item fault, _ =>
          rcases update_version_mono fault store kind item t k r h with ⟨r1, h1f, h1v⟩
          rw [runOp_upsert_fst]
          rcases ih (updateWithVersioning fault store kind item).1 t k r1 hwr h1f
            with ⟨r', hf', hv'⟩
          exact ⟨r', hf', le_trans h1v hv'⟩
      | .deleteOp kind key version fault, _ =>
          rcases update_version_mono fault store kind
            (kind.makeDeletedItem key version) t k r h with ⟨r1, h1f, h1v⟩
          rw [runOp_delete_fst]
          rcases ih (updateWithVersioning fault store kind
            (kind.makeDeletedItem key version)).1 t k r1 hwr h1f
            with ⟨r', hf', hv'⟩
          exact ⟨r', hf', le_trans h1v hv'⟩

/-! ### Claim theorems -/

/-- C1: a write issued through `Upsert` or `Delete` whose candidate version is
not strictly greater than the version of the currently stored item leaves the
stored item unchanged (and reports success), and consequently the stored
version for a (kind, key) is non-decreasing across every sequence of
`Upsert`/`Delete` operations. -/
theorem upsert_delete_version_monotone :
    (∀ (store : DynamoDBFeatureStore) (kind : Kind) (item stored : Record),
      findItem (store.tables (tableName store kind)) item.key = some stored →
      item.version ≤ stored.version →
      Upsert none store kind item = (store, .ok ())) ∧
    (∀ (store : DynamoDBFeatureStore) (kind : Kind) (key : String)
      (version : Int) (stored : Record),
      findItem (store.tables (tableName store kind)) key = some stored →
      version ≤ stored.version →
      Delete none store kind key version = (store, .ok ())) ∧
    (∀ (ops : List Op) (store : DynamoDBFeatureStore) (t k : String)
      (r : Record),
      (∀ op ∈ ops, isWriteOp op = true) →
      findItem (store.tables t) k = some r →
      ∃ r', findItem ((runOps store ops).tables t) k = some r' ∧
        r.version ≤ r'.version) := by
  refine ⟨?_, ?_, ?_⟩
  · intro store kind item stored hf hv
    exact update_none_stale store kind item stored hf (not_lt.mpr hv)
  · intro store kind key version stored hf hv
    exact update_none_stale store kind (kind.makeDeletedItem key version) stored
      hf (not_lt.mpr hv)
  · exact fun ops store t k r hw h => runOps_version_mono ops store t k r hw h

/-- Witness for C1 at concrete inputs. -/
theorem upsert_delete_version_monotone_w :
    (Upsert none (sampleStore [recA5]) flagsKind recA3 =
      (sampleStore [recA5], .ok ())) ∧
    (Delete none (sampleStore [recA5]) flagsKind "a" 2 =
      (sampleStore [recA5], .ok ())) ∧
    (∃ r', findItem ((runOps (sampleStore [recA2])
      [.upsertOp flagsKind recA3 none]).tables "ld-features") "a" = some r' ∧
      recA2.version ≤ r'.version) :=
  ⟨upsert_delete_version_monotone.1 (sampleStore [recA5]) flagsKind recA3 recA5
      (by decide) (by decide),
   upsert_delete_version_monotone.2.1 (sampleStore [recA5]) flagsKind "a" 2 recA5
      (by decide) (by decide),
   upsert_delete_version_monotone.2.2 [.upsertOp flagsKind recA3 none]
      (sampleStore [recA2]) "ld-features" "a" recA2
      (by intro op hop; simp only [List.mem_singleton] at hop; subst hop; rfl)
      (by decide)⟩

/-- C2: for every `Upsert` or `Delete` call, a conditional-check failure of
the backend write is swallowed and the call returns success as a defined
no-op; every other transport failure of the write is returned to the caller
as an error. -/
theorem precondition_failed_noop :
    ∀ (fault : Option String) (store : DynamoDBFeatureStore) (kind : Kind)
      (item : Record) (key : String) (version : Int),
      ((putItemCond fault (store.tables (tableName store kind)) item).2 =
          .condFailed →
        Upsert fault store kind item = (store, .ok ())) ∧
      (∀ e, (putItemCond fault (store.tables (tableName store kind)) item).2 =
          .transportError e →
        Upsert fault store kind item = (store, .error e)) ∧
      ((putItemCond fault (store.tables (tableName store kind))
          (kind.makeDeletedItem key version)).2 = .condFailed →
        Delete fault store kind key version = (store, .ok ())) ∧
      (∀ e, (putItemCond fault (store.tables (tableName store kind))
          (kind.makeDeletedItem key version)).2 = .transportError e →
        Delete fault store kind key version = (store, .error e)) := by
  intro fault store kind item key version
  refine ⟨?_, ?_, ?_, ?_⟩
  · exact fun h => update_of_condFailed fault store kind item h
  · exact fun e h => update_of_transportError fault store kind item e h
  · exact fun h => update_of_condFailed fault store kind
      (kind.makeDeletedItem key version) h
  · exact fun e h => update_of_transportError fault store kind
      (kind.makeDeletedItem key version) e h

/-- Witness for C2 at concrete inputs. -/
theorem precondition_failed_noop_w :
    (Upsert none (sampleStore [recA5]) flagsKind recA3 =
      (sampleStore [recA5], .ok ())) ∧
    (Upsert (some "boom") (sampleStore [recA5]) flagsKind recA3 =
      (sampleStore [recA5], .error "boom")) ∧
    (Delete none (sampleStore [recA5]) flagsKind "a" 2 =
      (sampleStore [recA5], .ok ())) ∧
    (Delete (some "boom") (sampleStore [recA5]) flagsKind "a" 2 =
      (sampleStore [recA5], .error "boom")) :=
  ⟨(precondition_failed_noop none (sampleStore [recA5]) flagsKind recA3 "a" 2).1
      (by decide),
   (precondition_failed_noop (some "boom") (sampleStore [recA5]) flagsKind recA3
      "a" 2).2.1 "boom" (by decide),
   (precondition_failed_noop none (sampleStore [recA5]) flagsKind recA3 "a"
      2).2.2.1 (by decide),
   (precondition_failed_noop (some "boom") (sampleStore [recA5]) flagsKind recA3
      "a" 2).2.2.2 "boom" (by decide)⟩

/-- C3 counterexample: with an item of version 3 already stored under key
`a`, the two upserts of versions 1 and 2 both lose the conditional check, so
the final stored state for the key is not the v2 record, contradicting the
claim as stated at this input. -/
theorem upsert_commute_cex :
    findItem (((Upsert none (Upsert none (sampleStore [recA3]) flagsKind
      recA1).1 flagsKind recA2).1).tables
      (tableName (sampleStore [recA3]) flagsKind)) "a" ≠ some recA2 := by
  decide

/-- C3 (amended): two `Upsert` calls on the same key with versions v1 < v2
yield the same final store in either order; and the final stored state for
the key is the v2 record provided every item currently stored at the key has
version strictly below v2 (in particular when no item is stored). -/
theorem upsert_commute_amended :
    ∀ (store : DynamoDBFeatureStore) (kind : Kind) (r1 r2 : Record),
      r1.key = r2.key → r1.version < r2.version →
      ((Upsert none (Upsert none store kind r1).1 kind r2).1 =
        (Upsert none (Upsert none store kind r2).1 kind r1).1) ∧
      ((∀ s, findItem (store.tables (tableName store kind)) r2.key = some s →
          s.version < r2.version) →
        findItem (((Upsert none (Upsert none store kind r1).1 kind
          r2).1).tables (tableName store kind)) r2.key = some r2) := by
  intro store kind r1 r2 hk hv
  constructor
  · apply store_ext
    · simp only [Upsert]
      rw [update_tablePrefix, update_tablePrefix, update_tablePrefix,
        update_tablePrefix]
    · simp only [Upsert]
      rw [double_update_tables, double_update_tables,
        condPut_comm _ r1 r2 hk hv]
    · simp only [Upsert]
      rw [update_inited, update_inited, update_inited, update_inited]
  · intro hs
    simp only [Upsert]
    rw [double_update_tables, setTable_self]
    refine findItem_condPut_applies _ r2 ?_
    intro s hs2
    match hf : findItem (store.tables (tableName store kind)) r1.key with
    | none =>
        have hc : condPut (store.tables (tableName store kind)) r1 =
            putReplace (store.tables (tableName store kind)) r1 := by
          simp [condPut, putItemCond, hf]
        rw [hc, findItem_putReplace, if_pos (beq_iff_eq.mpr hk)] at hs2
        cases hs2
        exact hv
    | some s0 =>
        by_cases hvs : s0.version < r1.version
        · have hc : condPut (store.tables (tableName store kind)) r1 =
              putReplace (store.tables (tableName store kind)) r1 := by
            simp [condPut, putItemCond, hf, hvs]
          rw [hc, findItem_putReplace, if_pos (beq_iff_eq.mpr hk)] at hs2
          cases hs2
          exact hv
        · have hc : condPut (store.tables (tableName store kind)) r1 =
              store.tables (tableName store kind) := by
            simp [condPut, putItemCond, hf, hvs]
          rw [hc] at hs2
          exact hs s hs2

/-- Witness for the amended C3 at concrete inputs. -/
theorem upsert_commute_amended_w :
    ((Upsert none (Upsert none (mkStore "ld-") flagsKind recA1).1 flagsKind
        recA2).1 =
      (Upsert none (Upsert none (mkStore "ld-") flagsKind recA2).1 flagsKind
        recA1).1) ∧
    findItem (((Upsert none (Upsert none (mkStore "ld-") flagsKind recA1).1
      flagsKind recA2).1).tables (tableName (mkStore "ld-") flagsKind))
      recA2.key = some recA2 := by
  have h := upsert_commute_amended (mkStore "ld-") flagsKind recA1 recA2 rfl
    (by decide)
  exact ⟨h.1, h.2 (by intro s hs; simp [mkStore, findItem] at hs)⟩

/-- C4: a successful `Init(dataset)` replaces the contents of the partition
of each kind named in the dataset with exactly the records of dataset[kind]
(delete-then-write per partition), and afterwards `All(kind)` returns exactly
the non-tombstoned items of dataset[kind] and `Initialized()` reports
true.  The hypotheses reflect the DynamoDB data model: the table of each kind
is distinct, and each per-kind dataset maps each key to one record. -/
theorem init_rebuilds_and_all :
    ∀ (store : DynamoDBFeatureStore) (allData : List (Kind × List Record))
      (kind : Kind) (items : List Record),
      (kind, items) ∈ allData →
      (allData.map (fun kv => tableName store kv.1)).Nodup →
      (∀ kv ∈ allData, (kv.2.map (fun r => r.key)).Nodup) →
      ((Init store allData).tables (tableName store kind) = items ∧
       All (Init store allData) kind =
         .ok ((items.filter (fun r => !r.deleted)).map (fun r => (r.key, r))) ∧
       Initialized (Init store allData) = true) := by
  intro store allData kind items hmem hnd hkeys
  have hkeys' : (items.map (fun r => r.key)).Nodup := hkeys (kind, items) hmem
  have htab : (Init store allData).tables (tableName store kind) = items := by
    show (allData.foldl (fun st kv => initKind st kv.1 kv.2) store).tables
      (tableName store kind) = items
    exact foldl_init_tables_mem allData store kind items hmem hnd hkeys'
  have hpre : (Init store allData).tablePrefix = store.tablePrefix := by
    show (allData.foldl (fun st kv => initKind st kv.1 kv.2) store).tablePrefix
      = store.tablePrefix
    exact foldl_init_tablePrefix allData store
  have htn : tableName (Init store allData) kind = tableName store kind := by
    rw [tableName, tableName, hpre]
  refine ⟨htab, ?_, rfl⟩
  have h1 : (Init store allData).tables (tableName (Init store allData) kind)
      = items := by
    rw [htn]
    exact htab
  rw [All, h1, all_foldl_eq items [] hkeys' (by simp)]
  simp

/-- Witness for C4 at concrete inputs. -/
theorem init_rebuilds_and_all_w :
    ((Init (mkStore "ld-") [(flagsKind, [recA2, recB2, recC1])]).tables
      (tableName (mkStore "ld-") flagsKind) = [recA2, recB2, recC1]) ∧
    (All (Init (mkStore "ld-") [(flagsKind, [recA2, recB2, recC1])]) flagsKind =
      .ok [("a", recA2), ("b", recB2)]) ∧
    (Initialized (Init (mkStore "ld-") [(flagsKind, [recA2, recB2, recC1])]) =
      true) := by
  have h := init_rebuilds_and_all (mkStore "ld-")
    [(flagsKind, [recA2, recB2, recC1])] flagsKind [recA2, recB2, recC1]
    (by decide) (by decide) (by decide)
  exact ⟨h.1, by rw [h.2.1]; rfl, h.2.2⟩

/-- C5: `Get(kind, key)` returns the defined not-found result (no record, no
error) both when no item is stored for the key and when the stored item is a
tombstone, and returns the stored record otherwise; a tombstoned record is
never observed as live data. -/
theorem get_not_found_iff :
    ∀ (store : DynamoDBFeatureStore) (kind : Kind) (key : String),
      (Get store kind key = .ok none ↔
        (findItem (store.tables (tableName store kind)) key = none ∨
         ∃ r, findItem (store.tables (tableName store kind)) key = some r ∧
           r.deleted = true)) ∧
      (∀ r, findItem (store.tables (tableName store kind)) key = some r →
        r.deleted = false → Get store kind key = .ok (some r)) := by
  intro store kind key
  match hf : findItem (store.tables (tableName store kind)) key with
  | none =>
      constructor
      · simp [Get, hf]
      · intro r hr
        exact absurd hr (by simp)
  | some r0 =>
      by_cases hd : r0.deleted
      · constructor
        · simp [Get, hf, hd]
        · intro r hr hdf
          have hr0 : r0 = r := Option.some.inj hr
          subst hr0
          rw [hdf] at hd
          exact absurd hd (by simp)
      · constructor
        · simp [Get, hf, hd]
        · intro r hr hdf
          have hr0 : r0 = r := Option.some.inj hr
          subst hr0
          simp [Get, hf, hd]

/-- Witness for C5 at concrete inputs. -/
theorem get_not_found_iff_w :
    (Get (sampleStore [recA2, recC1]) flagsKind "c" = .ok none) ∧
    (Get (sampleStore [recA2, recC1]) flagsKind "z" = .ok none) ∧
    (Get (sampleStore [recA2, recC1]) flagsKind "a" = .ok (some recA2)) :=
  ⟨(get_not_found_iff (sampleStore [recA2, recC1]) flagsKind "c").1.mpr
      (Or.inr ⟨recC1, by decide, by decide⟩),
   (get_not_found_iff (sampleStore [recA2, recC1]) flagsKind "z").1.mpr
      (Or.inl (by decide)),
   (get_not_found_iff (sampleStore [recA2, recC1]) flagsKind "a").2 recA2
      (by decide) (by decide)⟩

/-- C6: a successful `All(kind)` returns the mapping from key to record of
every non-tombstoned item stored in the partition of the kind, and no
tombstoned item appears in it — tombstones are absent from the result. -/
theorem all_non_tombstoned :
    ∀ (store : DynamoDBFeatureStore) (kind : Kind),
      (((store.tables (tableName store kind)).map (fun r => r.key)).Nodup →
        All store kind = .ok (((store.tables (tableName store kind)).filter
          (fun r => !r.deleted)).map (fun r => (r.key, r)))) ∧
      (∀ l, All store kind = .ok l → ∀ p ∈ l, p.2.deleted = false) := by
  intro store kind
  constructor
  · intro hnd
    rw [All, all_foldl_eq _ [] hnd (by simp)]
    simp
  · intro l hl p hp
    rw [All] at hl
    have hfold := Except.ok.inj hl
    rw [← hfold] at hp
    exact all_foldl_no_tombstone _ [] (by simp) p hp

/-- Witness for C6 at concrete inputs. -/
theorem all_non_tombstoned_w :
    (All (sampleStore [recA2, recC1]) flagsKind =
      .ok ((((sampleStore [recA2, recC1]).tables
        (tableName (sampleStore [recA2, recC1]) flagsKind)).filter
        (fun r => !r.deleted)).map (fun r => (r.key, r)))) ∧
    recA2.deleted = false :=
  ⟨(all_non_tombstoned (sampleStore [recA2, recC1]) flagsKind).1 (by decide),
   (all_non_tombstoned (sampleStore [recA2, recC1]) flagsKind).2
      [("a", recA2)] rfl ("a", recA2) (by decide)⟩

/-- C7: `Delete(kind, key, version)` writes the tombstone of the kind for the
key and version through the same conditional-write primitive as `Upsert` and
never physically removes a stored item; after an applied delete, the
tombstone item is physically present in the partition while `Get` returns
not-found. -/
theorem delete_writes_tombstone :
    ∀ (fault : Option String) (store : DynamoDBFeatureStore) (kind : Kind)
      (key : String) (version : Int),
      (Delete fault store kind key version =
        Upsert fault store kind (kind.makeDeletedItem key version)) ∧
      (∀ (t k : String) (r : Record),
        findItem (store.tables t) k = some r →
        ∃ r', findItem (((Delete fault store kind key version).1).tables t) k =
          some r') ∧
      ((∀ s, findItem (store.tables (tableName store kind)) key = some s →
          s.version < version) →
        (findItem (((Delete none store kind key version).1).tables
          (tableName store kind)) key =
            some (kind.makeDeletedItem key version) ∧
         Get (Delete none store kind key version).1 kind key = .ok none)) := by
  intro fault store kind key version
  refine ⟨rfl, ?_, ?_⟩
  · intro t k r h
    rcases update_version_mono fault store kind
      (kind.makeDeletedItem key version) t k r h with ⟨r', hf, _⟩
    exact ⟨r', hf⟩
  · intro hs
    have htab : ((Delete none store kind key version).1).tables =
        setTable store.tables (tableName store kind)
          (condPut (store.tables (tableName store kind))
            (kind.makeDeletedItem key version)) :=
      update_none_tables store kind (kind.makeDeletedItem key version)
    have hfind : findItem (condPut (store.tables (tableName store kind))
        (kind.makeDeletedItem key version)) key =
        some (kind.makeDeletedItem key version) :=
      findItem_condPut_applies (store.tables (tableName store kind))
        (kind.makeDeletedItem key version) (fun s hsf => hs s hsf)
    constructor
    · rw [htab, setTable_self]
      exact hfind
    · have hpre : tableName (Delete none store kind key version).1 kind =
          tableName store kind :=
        tableName_update none store kind (kind.makeDeletedItem key version) kind
      have hfind2 : findItem (((Delete none store kind key version).1).tables
          (tableName (Delete none store kind key version).1 kind)) key =
          some (kind.makeDeletedItem key version) := by
        rw [hpre, htab, setTable_self]
        exact hfind
      simp [Get, hfind2, makeDeletedItem_deleted]

/-- Witness for C7 at concrete inputs. -/
theorem delete_writes_tombstone_w :
    (Delete none (sampleStore [recA2]) flagsKind "a" 5 =
      Upsert none (sampleStore [recA2]) flagsKind
        (flagsKind.makeDeletedItem "a" 5)) ∧
    (∃ r', findItem (((Delete none (sampleStore [recA2]) flagsKind "a"
      5).1).tables "ld-features") "a" = some r') ∧
    (findItem (((Delete none (sampleStore [recA2]) flagsKind "a" 5).1).tables
      (tableName (sampleStore [recA2]) flagsKind)) "a" =
      some (flagsKind.makeDeletedItem "a" 5) ∧
     Get (Delete none (sampleStore [recA2]) flagsKind "a" 5).1 flagsKind "a" =
      .ok none) := by
  have h := delete_writes_tombstone none (sampleStore [recA2]) flagsKind "a" 5
  refine ⟨h.1, ?_, ?_⟩
  · exact h.2.1 "ld-features" "a" recA2 (by decide)
  · refine h.2.2 ?_
    intro s hsf
    have h2 : findItem ((sampleStore [recA2]).tables
        (tableName (sampleStore [recA2]) flagsKind)) "a" = some recA2 := by
      decide
    rw [h2] at hsf
    have hrs : recA2 = s := Option.some.inj hsf
    subst hrs
    decide

/-- C8: `Initialized()` returns true iff some earlier `Init` call on the
store returned success: the flag of a fresh store is false, a failed `Init`
leaves it unchanged, a successful `Init` sets it true, and no operation
reverts it. -/
theorem initialized_iff_successful_init :
    ∀ (p : String) (ops : List Op),
      (Initialized (runOps (mkStore p) ops) = ops.any opSetsInit) ∧
      (∀ (store : DynamoDBFeatureStore) (allData : List (Kind × List Record))
        (faults : List Bool),
        (runOp store (.initOp allData faults)).2 =
          opSetsInit (.initOp allData faults)) ∧
      (∀ (store : DynamoDBFeatureStore) (op : Op),
        (runOp store op).1.inited = (store.inited || opSetsInit op)) := by
  intro p ops
  refine ⟨?_, ?_, ?_⟩
  · show (runOps (mkStore p) ops).inited = ops.any opSetsInit
    rw [runOps_inited]
    simp [mkStore]
  · intro store allData faults
    rw [runOp_init_snd]
    rfl
  · exact fun store op => runOp_inited store op

/-- C9: the batching helper submits a request list as consecutive batches of
at most 25 operations each; every request is submitted exactly once, in list
order, and (when no batch fails) the net effect equals applying the requests
in order. -/
theorem batch_write_requests_spec :
    ∀ reqs : List WriteRequest,
      ((writeBatches reqs).flatten = reqs) ∧
      (∀ b ∈ writeBatches reqs, b.length ≤ 25) ∧
      (∀ items : List Record,
        submitBatches items (writeBatches reqs) = applyRequests items reqs) :=
  fun reqs =>
    ⟨writeBatches_join reqs, fun b hb => writeBatches_le reqs b hb,
     fun items => submitBatches_writeBatches items reqs⟩

/-- Witness for C9 at a concrete request list of 30 operations. -/
theorem batch_write_requests_spec_w :
    ((writeBatches (List.replicate 30 (WriteRequest.del "k"))).flatten =
      List.replicate 30 (WriteRequest.del "k")) ∧
    (List.replicate 25 (WriteRequest.del "k")).length ≤ 25 ∧
    (submitBatches [] (writeBatches (List.replicate 30 (WriteRequest.del "k")))
      = applyRequests [] (List.replicate 30 (WriteRequest.del "k"))) :=
  ⟨(batch_write_requests_spec (List.replicate 30 (WriteRequest.del "k"))).1,
   (batch_write_requests_spec (List.replicate 30 (WriteRequest.del "k"))).2.1
      (List.replicate 25 (WriteRequest.del "k")) (by decide),
   (batch_write_requests_spec (List.replicate 30 (WriteRequest.del "k"))).2.2
      []⟩

/-- C10: `Init` only modifies the partitions of the kinds that appear in the
dataset; the table of any other name is left entirely unchanged. -/
theorem init_frame :
    ∀ (store : DynamoDBFeatureStore) (allData : List (Kind × List Record))
      (t : String),
      t ∉ allData.map (fun kv => tableName store kv.1) →
      (Init store allData).tables t = store.tables t := by
  intro store allData t ht
  show (allData.foldl (fun st kv => initKind st kv.1 kv.2) store).tables t =
    store.tables t
  exact foldl_init_tables_other allData store t ht

/-- Witness for C10 at concrete inputs. -/
theorem init_frame_w :
    (Init (sampleStore [recA2]) [(flagsKind, [recB2])]).tables "ld-segments" =
      (sampleStore [recA2]).tables "ld-segments" :=
  init_frame (sampleStore [recA2]) [(flagsKind, [recB2])] "ld-segments"
    (by decide)

end DynamoStore
